import Mathlib

/-!
Verification of the eth-loadtester core against its source.

The development shallowly embeds the JavaScript sources:
  - src/WalletManager.js : wallet creation, nonce cache, fund distribution,
    fund collection;
  - src/LoadTester.js    : the concurrent dispatch loops and statistics;
  - src/config.js        : configuration validation.

External collaborators (the ethers RPC provider, key generation, timers) are
modelled as oracle parameters.  Machine numerics are embedded exactly:
JavaScript BigInt values become Nat/Int, and the one floating-point
computation in the source (0.01 * numWallets followed by toString and
parseEther in distributeFunds) is embedded by an exact model of IEEE-754
binary64 multiplication and shortest round-trip decimal serialization,
written with plain Nat/Int arithmetic.
-/

namespace EthLoadTester

/-! ### Exact model of the one floating-point computation

WalletManager.distributeFunds computes
  ethers.parseEther((0.01 * this.childWallets.length).toString()).
The literal 0.01 denotes the binary64 value closest to 1/100, namely
5764607523034235 * 2 ^ (-59).  The product with the wallet count is rounded
to nearest-even binary64, serialized by Number.prototype.toString (shortest
decimal that round-trips), and parsed by parseEther into an exact wei value.
All of this is reproduced below with exact integer arithmetic.
-/

/-- Significand of the binary64 value of the literal 0.01; the value is
q01 * 2 ^ (-59). -/
def q01 : Nat := 5764607523034235

/-- Number of binary digits of a natural number (0 for 0).  The first
argument is structural fuel; n itself is always sufficient. -/
def bitLenAux : Nat → Nat → Nat
  | 0, _ => 0
  | fuel + 1, n => if n = 0 then 0 else bitLenAux fuel (n / 2) + 1

/-- Number of binary digits of a natural number (0 for 0). -/
def bitLen (n : Nat) : Nat := bitLenAux n n

/-- Number of decimal digits of a natural number (0 for 0). -/
def digitsAux : Nat → Nat → Nat
  | 0, _ => 0
  | fuel + 1, n => if n = 0 then 0 else digitsAux fuel (n / 10) + 1

/-- Number of decimal digits of a natural number (0 for 0). -/
def digits10 (n : Nat) : Nat := digitsAux n n

/-- Round the exact value n * 2 ^ e (n > 0) to the nearest binary64 value
(53-bit significand, ties to even); the result (q, E) denotes q * 2 ^ E.
Exponent overflow cannot occur for the magnitudes reached here. -/
def roundToDouble (n : Nat) (e : Int) : Nat × Int :=
  let L := bitLen n
  if L ≤ 53 then (n, e)
  else
    let s := L - 53
    let q := n / 2 ^ s
    let r := n % 2 ^ s
    let half := 2 ^ (s - 1)
    let q1 := if half < r ∨ (r = half ∧ q % 2 = 1) then q + 1 else q
    if q1 = 2 ^ 53 then (2 ^ 52, e + s + 1) else (q1, e + s)

/-- Exact three-way comparison of d * 10 ^ p with m * 2 ^ F. -/
def cmpDecBin (d : Nat) (p : Int) (m : Nat) (F : Int) : Ordering :=
  compare (d * 10 ^ p.toNat * 2 ^ (-F).toNat) (m * 2 ^ F.toNat * 10 ^ (-p).toNat)

/-- Floor of q * 2 ^ E * 10 ^ s for a natural s. -/
def floorShift (q : Nat) (E : Int) (s : Nat) : Nat :=
  q * 10 ^ s * 2 ^ E.toNat / 2 ^ (-E).toNat

/-- Floor of q * 2 ^ E * 10 ^ (-p). -/
def floorDec (q : Nat) (E : Int) (p : Int) : Nat :=
  q * 10 ^ (-p).toNat * 2 ^ E.toNat / (10 ^ p.toNat * 2 ^ (-E).toNat)

/-- One candidate digit count of the shortest-decimal search: with nd
significant digits, decide whether a decimal with that many digits lies in
the rounding interval (lm * 2 ^ lF, um * 2 ^ uF) of the double q * 2 ^ E
(bounds included when incl is true), and if so return the one closest to
the double, as (digits, decimal exponent).  The fuel counts the remaining
digit counts to try; 17 always suffices for binary64. -/
def shortestAux (q : Nat) (E : Int) (lm : Nat) (lF : Int) (um : Nat) (uF : Int)
    (incl : Bool) (e10 : Int) : Nat → Nat → Option (Nat × Int)
  | 0, _ => none
  | fuel + 1, nd =>
    let p : Int := e10 - nd + 1
    let dlo := floorDec q E p
    let dhi := dlo + 1
    let inLow : Nat → Bool := fun d =>
      match cmpDecBin d p lm lF with
      | .lt => false
      | .eq => incl
      | .gt => true
    let inHigh : Nat → Bool := fun d =>
      match cmpDecBin d p um uF with
      | .gt => false
      | .eq => incl
      | .lt => true
    let inI : Nat → Bool := fun d => inLow d && inHigh d
    let okLo := decide (0 < dlo) && inI dlo
    let okHi := inI dhi
    if okLo && okHi then
      match cmpDecBin (2 * dlo + 1) p (2 * q) E with
      | .gt => some (dlo, p)
      | .lt => some (dhi, p)
      | .eq => some (if dlo % 2 = 0 then dlo else dhi, p)
    else if okLo then some (dlo, p)
    else if okHi then some (dhi, p)
    else shortestAux q E lm lF um uF incl e10 fuel (nd + 1)

/-- Shortest round-trip decimal representation of the normal binary64 value
q * 2 ^ E (as produced by Number.prototype.toString), as (digits, decimal
exponent): the represented value is digits * 10 ^ exponent. -/
def shortestDec (q : Nat) (E : Int) : Option (Nat × Int) :=
  if q = 0 then some (0, 0)
  else
    let lowPair : Nat × Int :=
      if q = 2 ^ 52 then (2 ^ 54 - 1, E - 2) else (2 * q - 1, E - 1)
    let lm := lowPair.1
    let lF := lowPair.2
    let um := 2 * q + 1
    let uF := E - 1
    let incl := q % 2 = 0
    let e10 : Int := (digits10 (floorShift q E 30) : Int) - 31
    shortestAux q E lm lF um uF incl e10 17 1

/-- Wei value of ethers.parseEther applied to the decimal d * 10 ^ p;
parseEther rejects more than 18 fractional digits (none for our inputs). -/
def parseEtherDec (d : Nat) (p : Int) : Option Nat :=
  if 0 ≤ p + 18 then some (d * 10 ^ (p + 18).toNat) else none

/-- Gas reserve of distributeFunds in wei:
ethers.parseEther((0.01 * numWallets).toString()) with the exact binary64
semantics of the multiplication and of toString. -/
def gasReserveWei (W : Nat) : Option Nat :=
  if W = 0 then some 0
  else
    let qe := roundToDouble (q01 * W) (-59)
    match shortestDec qe.1 qe.2 with
    | none => none
    | some dp => parseEtherDec dp.1 dp.2

/-! ### Nonce cache (the spec's SequenceAllocator)

WalletManager keeps this.nonces, a Map from wallet address to the next
nonce to use.  Addresses are abstract; the JavaScript Map is embedded as an
association list with Map.set replacement semantics. -/

/-- Wallet addresses, abstract. -/
abbrev Address := Nat

/-- Map.get on this.nonces: none when the key is absent. -/
def lookupNonce : List (Address × Nat) → Address → Option Nat
  | [], _ => none
  | (k, v) :: rest, a => if k = a then some v else lookupNonce rest a

/-- Map.set on this.nonces: replaces an existing binding, else appends. -/
def insertNonce : List (Address × Nat) → Address → Nat → List (Address × Nat)
  | [], a, v => [(a, v)]
  | (k, w) :: rest, a, v =>
    if k = a then (a, v) :: rest else (k, w) :: insertNonce rest a v

/-- WalletManager.getNextNonce: reads the cached value (the JavaScript
expression this.nonces.get(address) || 0 defaults a missing entry to 0),
stores the value plus one, and returns the value read.  It takes no ledger
parameter: the source performs no RPC call here. -/
def getNextNonce (st : List (Address × Nat)) (a : Address) :
    Nat × List (Address × Nat) :=
  let c := (lookupNonce st a).getD 0
  (c, insertNonce st a (c + 1))

/-- WalletManager.updateNonce: overwrites the cached entry with the
ledger-reported pending-inclusive transaction count (the pending argument)
and returns it. -/
def updateNonce (st : List (Address × Nat)) (a : Address) (pending : Nat) :
    Nat × List (Address × Nat) :=
  (pending, insertNonce st a pending)

/-- Return values of k successive getNextNonce calls for one address,
together with the final cache state. -/
def allocRun (st : List (Address × Nat)) (a : Address) :
    Nat → List Nat × List (Address × Nat)
  | 0 => ([], st)
  | k + 1 =>
    let r := getNextNonce st a
    let rs := allocRun r.2 a k
    (r.1 :: rs.1, rs.2)

/-! ### Account pool (WalletManager construction and createWallets) -/

/-- State owned by a WalletManager: the generated child wallets, the nonce
cache, and the state of the external key generator.  Key generation
(ethers.Wallet.createRandom) is an external collaborator; following the
spec's contract that every generated address is globally unique within the
run, freshness is modelled by a counter. -/
structure Pool where
  nextFresh : Nat
  childWallets : List Address
  nonces : List (Address × Nat)
deriving DecidableEq

/-- Modelled from the spec: ethers.Wallet.createRandom() is outside src;
the spec requires generate-new-account to yield an address globally unique
within the run, which the fresh counter realizes. -/
def createRandom (p : Pool) : Address × Pool :=
  (p.nextFresh, { p with nextFresh := p.nextFresh + 1 })

/-- Body of the for loop of WalletManager.createWallets, run k times:
create a wallet, push it on this.childWallets, set its nonce cache to 0. -/
def createWalletsLoop : Nat → Pool → Pool
  | 0, p => p
  | k + 1, p =>
    let r := createRandom p
    createWalletsLoop k
      { r.2 with
        childWallets := r.2.childWallets ++ [r.1]
        nonces := insertNonce r.2.nonces r.1 0 }

/-- WalletManager.createWallets(numWallets): the JavaScript loop
for (let i = 0; i < numWallets; i++) runs max(numWallets, 0) times; the
function never throws and returns this.childWallets. -/
def createWallets (numWallets : Int) (p : Pool) : Pool × List Address :=
  let p1 := createWalletsLoop numWallets.toNat p
  (p1, p1.childWallets)

/-- Pool state produced by the WalletManager constructor. -/
def initialPool : Pool := { nextFresh := 0, childWallets := [], nonces := [] }

/-- Stated from the claim's words for comparison with the source: a
createAccounts that fails with an InvalidCount condition when n ≤ 0. -/
inductive ClaimPoolError where
  | invalidCount
deriving DecidableEq

/-- Stated from the claim's words for comparison with the source:
createAccounts(n) failing with InvalidCount for n ≤ 0, else deferring to
the source's createWallets. -/
def createAccountsClaim (n : Int) (p : Pool) :
    Except ClaimPoolError (Pool × List Address) :=
  if n ≤ 0 then .error .invalidCount else .ok (createWallets n p)

/-! ### Configuration validation (src/config.js) -/

/-- Error messages pushed by validateConfig, as an enumeration (the source
pushes message strings in this order). -/
inductive ConfigError where
  | missingPrivateKey
  | missingRpcUrl
  | invalidNumWallets
  | invalidTransactionsPerWallet
  | invalidIntervalMs
deriving DecidableEq

/-- Recognized configuration options; the two string-valued required
options are modelled by their presence only. -/
structure Config where
  hasPrivateKey : Bool
  hasRpcUrl : Bool
  numWallets : Int
  transactionsPerWallet : Int
  intervalMs : Int
deriving DecidableEq

/-- validateConfig from src/config.js: collects the errors in source
order; the source throws exactly when the collected list is nonempty. -/
def validateConfig (c : Config) : List ConfigError :=
  (if c.hasPrivateKey then [] else [ConfigError.missingPrivateKey])
  ++ (if c.hasRpcUrl then [] else [ConfigError.missingRpcUrl])
  ++ (if c.numWallets ≤ 0 then [ConfigError.invalidNumWallets] else [])
  ++ (if c.transactionsPerWallet ≤ 0 then
        [ConfigError.invalidTransactionsPerWallet] else [])
  ++ (if c.intervalMs < 0 then [ConfigError.invalidIntervalMs] else [])

/-! ### Fund distribution (WalletManager.distributeFunds)

The provider, the confirmation outcomes and the initial pending nonce of
the master wallet are oracle parameters.  The per-index oracle ok gives
the terminal outcome of the transfer with global index i: the promise for
that transfer resolves when ok i is true and rejects otherwise.  The batch
loop is embedded with structural fuel (the wallet count always suffices:
each round consumes at least one wallet). -/

/-- A broadcast transfer: recipient (the source's to field), amount in
wei, explicit nonce. -/
structure Transfer where
  dest : Address
  value : Nat
  nonce : Nat
deriving DecidableEq

/-- Observable ledger interactions of distributeFunds. -/
inductive DistEvent where
  | broadcast (t : Transfer)
  | confirmed (t : Transfer)
  | failedTx (t : Transfer)
deriving DecidableEq

/-- Errors thrown by distributeFunds.  noFunds and insufficientAfterReserve
are the two explicit throws; parseError models parseEther rejecting the
serialized reserve (unreachable for wallet counts that arise); divByZero
models the BigInt division by a zero wallet count; transferFailed is the
rejection propagated out of await Promise.all. -/
inductive DistError where
  | noFunds
  | insufficientAfterReserve
  | parseError
  | divByZero
  | transferFailed
deriving DecidableEq

/-- Result of distributeFunds: either unit or a thrown error. -/
inductive DResult where
  | ok
  | err (e : DistError)
deriving DecidableEq

/-- Trace plus result of distributeFunds. -/
structure DistResult where
  events : List DistEvent
  result : DResult
deriving DecidableEq

/-- Map with an explicit running index (the value of batchStart plus the
map callback's batchIndex in the source). -/
def idxMap (f : Nat → Address → β) : Nat → List Address → List β
  | _, [] => []
  | i, a :: as => f i a :: idxMap f (i + 1) as

/-- Whether every transfer with global index in [start, start + n) resolves
under the outcome oracle (Promise.all of a batch fulfills exactly when
every member fulfills). -/
def allOk (ok : Nat → Bool) : Nat → Nat → Bool
  | _, 0 => true
  | start, n + 1 => ok start && allOk ok (start + 1) n

/-- The batch loop of distributeFunds: slice off a batch of (at most) 20
wallets, issue its transfers concurrently (every member's sendTransaction
is invoked: the async callbacks run to their first await before
Promise.all is awaited), each with nonce base + global index, wait for all
of them, and continue only when every member of the batch resolved.  The
first argument of the recursion is structural fuel; the wallet list length
always suffices. -/
def runDistAux (share base : Nat) (ok : Nat → Bool) :
    Nat → Nat → List Address → List DistEvent × Bool
  | 0, _, _ => ([], true)
  | _ + 1, _, [] => ([], true)
  | fuel + 1, start, w :: ws =>
    let batch := (w :: ws).take 20
    let rest := (w :: ws).drop 20
    let sends :=
      idxMap (fun gi a => DistEvent.broadcast ⟨a, share, base + gi⟩) start batch
    let terms :=
      idxMap (fun gi a =>
        if ok gi then DistEvent.confirmed ⟨a, share, base + gi⟩
        else DistEvent.failedTx ⟨a, share, base + gi⟩) start batch
    if allOk ok start batch.length then
      let r := runDistAux share base ok fuel (start + batch.length) rest
      (sends ++ terms ++ r.1, r.2)
    else (sends ++ terms, false)

/-- WalletManager.distributeFunds: read the master balance, throw when it
is zero; compute the gas reserve (binary64 model above), the available
balance (BigInt subtraction, possibly negative) and throw when it is not
positive; split the available balance evenly (BigInt floor division); read
the master's pending nonce once (the baseNonce oracle); then run the batch
loop. -/
def distributeFunds (masterBalance : Nat) (wallets : List Address)
    (baseNonce : Nat) (ok : Nat → Bool) : DistResult :=
  if masterBalance = 0 then ⟨[], .err .noFunds⟩
  else
    match gasReserveWei wallets.length with
    | none => ⟨[], .err .parseError⟩
    | some reserve =>
      let available : Int := (masterBalance : Int) - (reserve : Int)
      if available ≤ 0 then ⟨[], .err .insufficientAfterReserve⟩
      else if wallets.length = 0 then ⟨[], .err .divByZero⟩
      else
        let share := available.toNat / wallets.length
        let r := runDistAux share baseNonce ok wallets.length 0 wallets
        ⟨r.1, if r.2 then .ok else .err .transferFailed⟩

/-- The batch partition of the wallet list as sliced by the source's loop
(slice(batchStart, batchStart + 20)); structural fuel as in runDistAux. -/
def distBatches : Nat → List Address → List (List Address)
  | 0, _ => []
  | _ + 1, [] => []
  | fuel + 1, w :: ws => (w :: ws).take 20 :: distBatches fuel ((w :: ws).drop 20)

/-- Events of one fully successful batch starting at global index start:
all broadcasts of the batch, then all confirmations of the batch. -/
def plannedBatchEvents (share base start : Nat) (batch : List Address) :
    List DistEvent :=
  idxMap (fun gi a => DistEvent.broadcast ⟨a, share, base + gi⟩) start batch
  ++ idxMap (fun gi a => DistEvent.confirmed ⟨a, share, base + gi⟩) start batch

/-- Per-batch event blocks of a fully successful distribution, in batch
order. -/
def plannedBlocks (share base : Nat) : Nat → Nat → List Address →
    List (List DistEvent)
  | 0, _, _ => []
  | _ + 1, _, [] => []
  | fuel + 1, start, w :: ws =>
    plannedBatchEvents share base start ((w :: ws).take 20)
    :: plannedBlocks share base fuel (start + ((w :: ws).take 20).length)
        ((w :: ws).drop 20)

/-- Transfers broadcast in a trace, in trace order. -/
def broadcastsOf (evs : List DistEvent) : List Transfer :=
  evs.filterMap (fun e =>
    match e with
    | .broadcast t => some t
    | _ => none)

/-! ### Transaction dispatch (src/LoadTester.js)

The per-wallet loops run concurrently on the JavaScript event loop; every
update of the shared statistics and of the nonce cache happens between two
suspension points, and distinct wallets touch distinct cache entries, so
the final statistics and cache are those of the sequential composition of
the per-wallet loops, which is what the embedding computes.  The ledger is
an oracle: pending gives getTransactionCount(addr, 'pending'), and outcome
gives the fate of transaction number ti of wallet number wi. -/

/-- The counters of this.stats (timestamps are not modelled: no claim
mentions them, and Date.now is an external effect). -/
structure Stats where
  totalTransactions : Nat
  successfulTransactions : Nat
  failedTransactions : Nat
deriving DecidableEq

/-- Mutable state of a LoadTester (plus the WalletManager nonce cache it
shares). -/
structure LTState where
  isRunning : Bool
  stats : Stats
  nonces : List (Address × Nat)
deriving DecidableEq

/-- Fate of one sendTransaction call of the dispatch loop:
confirmed (receipt.status = 1), reverted (wait returns a receipt with
another status), broadcastThrew (wallet.sendTransaction rejects),
confirmThrew (tx.wait rejects).  For the two throwing cases, nonceRelated
records whether the error message contains nonce or replacement. -/
inductive TxOutcome where
  | confirmed
  | reverted
  | broadcastThrew (nonceRelated : Bool)
  | confirmThrew (nonceRelated : Bool)
deriving DecidableEq

/-- Whether a fate makes sendTransaction throw. -/
def throwsOutcome : TxOutcome → Bool
  | .confirmed => false
  | .reverted => false
  | .broadcastThrew _ => true
  | .confirmThrew _ => true

/-- Environment of a load test run: the wallet pool, the configured
transactions per wallet, and the ledger oracles. -/
structure LTEnv where
  wallets : List Address
  transactionsPerWallet : Nat
  pending : Address → Nat
  outcome : Nat → Nat → TxOutcome

/-- Observable steps of the dispatch loops.  staggerSleep is the initial
per-wallet delay of walletIndex * intervalMs / wallets.length
milliseconds; intervalSleep is the configured delay taken between
consecutive sends; attempt marks entry into sendTransaction; broadcast
carries the nonce passed to wallet.sendTransaction; resync marks
updateNonce recovering from a nonce-related error. -/
inductive LTEvent where
  | staggerSleep (walletIndex : Nat)
  | intervalSleep (walletIndex txIndex : Nat)
  | attempt (walletIndex txIndex : Nat)
  | broadcast (w : Address) (nonce : Nat)
  | resync (w : Address)
deriving DecidableEq

/-- LoadTester.sendTransaction for wallet w (index wi), transaction ti:
allocate the nonce from the cache, broadcast, count the send, await the
receipt and classify it; on a thrown error count a failure, resync the
nonce cache from the ledger when the message is nonce-related, and
rethrow.  Returns the state, the emitted events, and whether the call
threw. -/
def sendTransaction (env : LTEnv) (w : Address) (wi ti : Nat)
    (st : LTState) : LTState × List LTEvent × Bool :=
  let r := getNextNonce st.nonces w
  let nonce := r.1
  let st1 := { st with nonces := r.2 }
  match env.outcome wi ti with
  | .confirmed =>
    ({ st1 with stats :=
        { st1.stats with
          totalTransactions := st1.stats.totalTransactions + 1
          successfulTransactions := st1.stats.successfulTransactions + 1 } },
     [.attempt wi ti, .broadcast w nonce], false)
  | .reverted =>
    ({ st1 with stats :=
        { st1.stats with
          totalTransactions := st1.stats.totalTransactions + 1
          failedTransactions := st1.stats.failedTransactions + 1 } },
     [.attempt wi ti, .broadcast w nonce], false)
  | .broadcastThrew nonceRelated =>
    let st2 := { st1 with stats :=
      { st1.stats with
        failedTransactions := st1.stats.failedTransactions + 1 } }
    if nonceRelated then
      ({ st2 with nonces := insertNonce st2.nonces w (env.pending w) },
       [.attempt wi ti, .resync w], true)
    else (st2, [.attempt wi ti], true)
  | .confirmThrew nonceRelated =>
    let st2 := { st1 with stats :=
      { st1.stats with
        totalTransactions := st1.stats.totalTransactions + 1
        failedTransactions := st1.stats.failedTransactions + 1 } }
    if nonceRelated then
      ({ st2 with nonces := insertNonce st2.nonces w (env.pending w) },
       [.attempt wi ti, .broadcast w nonce, .resync w], true)
    else (st2, [.attempt wi ti, .broadcast w nonce], true)

/-- One iteration of the loop body of runWalletTransactions: call
sendTransaction inside try; on no throw, sleep for the interval unless
this was the last iteration; on a throw, the catch block counts one more
failed transaction and falls through to the next iteration with no sleep. -/
def runWalletIter (env : LTEnv) (w : Address) (wi ti : Nat) (st : LTState) :
    LTState × List LTEvent × Bool :=
  let r := sendTransaction env w wi ti st
  if r.2.2 then
    ({ r.1 with stats :=
        { r.1.stats with
          failedTransactions := r.1.stats.failedTransactions + 1 } },
     r.2.1, true)
  else if ti < env.transactionsPerWallet - 1 then
    (r.1, r.2.1 ++ [.intervalSleep wi ti], false)
  else (r.1, r.2.1, false)

/-- The for loop of runWalletTransactions from iteration ti on, with
rem = transactionsPerWallet - ti iterations remaining (structural fuel);
each iteration first checks the running flag and breaks when it is
cleared. -/
def runWalletFrom (env : LTEnv) (w : Address) (wi : Nat) :
    Nat → Nat → LTState → LTState × List LTEvent
  | _, 0, st => (st, [])
  | ti, rem + 1, st =>
    if st.isRunning then
      let r := runWalletIter env w wi ti st
      let rs := runWalletFrom env w wi (ti + 1) rem r.1
      (rs.1, r.2.1 ++ rs.2)
    else (st, [])

/-- LoadTester.runWalletTransactions: the stagger sleep, then the loop. -/
def runWalletTransactions (env : LTEnv) (w : Address) (wi : Nat)
    (st : LTState) : LTState × List LTEvent :=
  let r := runWalletFrom env w wi 0 env.transactionsPerWallet st
  (r.1, LTEvent.staggerSleep wi :: r.2)

/-- LoadTester.initializeNonces: updateNonce for every wallet. -/
def initializeNonces (env : LTEnv) : List Address →
    List (Address × Nat) → List (Address × Nat)
  | [], st => st
  | w :: ws, st => initializeNonces env ws (insertNonce st w (env.pending w))

/-- The per-wallet loops, composed sequentially (see the section comment
for why this computes the shared final state of the concurrent run). -/
def runAllWallets (env : LTEnv) : Nat → List Address → LTState →
    LTState × List LTEvent
  | _, [], st => (st, [])
  | wi, w :: ws, st =>
    let r := runWalletTransactions env w wi st
    let rs := runAllWallets env (wi + 1) ws r.1
    (rs.1, r.2 ++ rs.2)

/-- Result of calling startLoadTest: the source throws when the tester is
already running, else the promise completes. -/
inductive StartResult where
  | alreadyRunning
  | completed
deriving DecidableEq

/-- LoadTester.startLoadTest: throw if already running; set the running
flag, zero the counters, initialize every wallet's nonce from the ledger,
run all wallet loops, and finally clear the running flag. -/
def startLoadTest (env : LTEnv) (st : LTState) :
    LTState × List LTEvent × StartResult :=
  if st.isRunning then (st, [], .alreadyRunning)
  else
    let st1 : LTState :=
      { isRunning := true
        stats := ⟨0, 0, 0⟩
        nonces := initializeNonces env env.wallets st.nonces }
    let r := runAllWallets env 0 env.wallets st1
    ({ r.1 with isRunning := false }, r.2, .completed)

/-- LoadTester.stop: clears the running flag, nothing else. -/
def stop (st : LTState) : LTState := { st with isRunning := false }

/-- State of a LoadTester as constructed: not running, all counters 0,
and (sharing the fresh WalletManager of the entry point) an empty nonce
cache. -/
def initialLTState : LTState := ⟨false, ⟨0, 0, 0⟩, []⟩

/-- Whether a trace contains an interval sleep. -/
def hasIntervalSleep (evs : List LTEvent) : Bool :=
  evs.any (fun e =>
    match e with
    | .intervalSleep _ _ => true
    | _ => false)

/-- Concrete dispatch environment for the C3 counterexample: one wallet,
one transaction per wallet, ledger pending count 0, every send
confirmed. -/
def envC3 : LTEnv :=
  { wallets := [0]
    transactionsPerWallet := 1
    pending := fun _ => 0
    outcome := fun _ _ => TxOutcome.confirmed }

/-- Concrete environment for the C5 witness: nonce-related confirmation
failure on every send, ledger pending count 42. -/
def envC5 : LTEnv :=
  { wallets := [7]
    transactionsPerWallet := 3
    pending := fun _ => 42
    outcome := fun _ _ => TxOutcome.confirmThrew true }

/-! ### Fund collection (WalletManager.collectAllFunds)

Each wallet's collection runs concurrently and independently: the callback
touches no shared mutable state (aggregation happens after Promise.all),
so the result list is the per-wallet map below.  The oracle fixes, per
wallet: whether some RPC call of the callback rejects (the catch block),
the queried balance, the fee data (gasPrice 0 models both a null and a
zero gasPrice, which the JavaScript || coalesces to the 20 gwei fallback),
and the receipt status of the sweep transaction. -/

/-- Ledger oracle for one wallet's collection. -/
structure CollectOracle where
  err : Bool
  balance : Nat
  gasPrice : Nat
  status1 : Bool

/-- Per-wallet outcome record ({ success, amount } in the source). -/
structure CollectResult where
  success : Bool
  amount : Nat
deriving DecidableEq

/-- Estimated gas cost: 1000000 gas times the fee-data gas price, with the
20 gwei fallback selected by JavaScript || when the gas price is absent or
zero. -/
def estimatedGasCost (gasPrice : Nat) : Nat :=
  1000000 * (if gasPrice = 0 then 20000000000 else gasPrice)

/-- The per-wallet callback of collectAllFunds.  Returns the record and
the amount broadcast toward the master wallet (none when no sweep
transaction was issued).  A thrown error anywhere in the callback is
caught locally and yields { success := false, amount := 0 }; the error
case is modelled at the first RPC call, before any broadcast. -/
def collectWallet (o : CollectOracle) : CollectResult × Option Nat :=
  if o.err then (⟨false, 0⟩, none)
  else if o.balance = 0 then (⟨true, 0⟩, none)
  else
    let cost := estimatedGasCost o.gasPrice
    if o.balance ≤ cost then (⟨true, 0⟩, none)
    else
      let amountToSend := o.balance - cost
      if o.status1 then (⟨true, amountToSend⟩, some amountToSend)
      else (⟨false, 0⟩, some amountToSend)

/-- Aggregate returned by collectAllFunds. -/
structure CollectSummary where
  successfulCollections : Nat
  totalWallets : Nat
  totalCollected : Nat
  finalMasterBalance : Nat
deriving DecidableEq

/-- WalletManager.collectAllFunds: map the callback over all wallets,
await all of them (none can reject: each catches internally), fold the
successes into the two accumulators, and read the master balance. -/
def collectAllFunds (oracles : List CollectOracle)
    (finalMasterBalance : Nat) : CollectSummary × List CollectResult :=
  let results := oracles.map (fun o => (collectWallet o).1)
  let successful := (results.filter (fun r => r.success)).length
  let total := results.foldl
    (fun acc r => if r.success then acc + r.amount else acc) 0
  (⟨successful, oracles.length, total, finalMasterBalance⟩, results)

/-! ### Helper lemmas -/

theorem lookupNonce_insert (st : List (Address × Nat)) (a : Address) (v : Nat) :
    lookupNonce (insertNonce st a v) a = some v := by
  induction st with
  | nil => simp [insertNonce, lookupNonce]
  | cons kv rest ih =>
    by_cases h : kv.1 = a
    · simp [insertNonce, lookupNonce, h]
    · simp [insertNonce, lookupNonce, h, ih]

theorem allocRun_of_lookup (a : Address) (k : Nat) :
    ∀ (st : List (Address × Nat)) (c : Nat), lookupNonce st a = some c →
      (allocRun st a k).1 = List.range' c k := by
  induction k with
  | zero => intro st c _; simp [allocRun]
  | succ k ih =>
    intro st c h
    have hget : getNextNonce st a = (c, insertNonce st a (c + 1)) := by
      simp [getNextNonce, h]
    have hnext : lookupNonce (insertNonce st a (c + 1)) a = some (c + 1) :=
      lookupNonce_insert st a (c + 1)
    simp [allocRun, hget, ih _ _ hnext, List.range'_succ]

theorem createWalletsLoop_spec (k : Nat) :
    ∀ p : Pool,
      (createWalletsLoop k p).childWallets
          = p.childWallets ++ List.range' p.nextFresh k
        ∧ (createWalletsLoop k p).nextFresh = p.nextFresh + k := by
  induction k with
  | zero => intro p; simp [createWalletsLoop]
  | succ k ih =>
    intro p
    have h := ih { p with
      nextFresh := p.nextFresh + 1
      childWallets := p.childWallets ++ [p.nextFresh]
      nonces := insertNonce p.nonces p.nextFresh 0 }
    constructor
    · calc (createWalletsLoop (k + 1) p).childWallets
          = (p.childWallets ++ [p.nextFresh]) ++ List.range' (p.nextFresh + 1) k := by
            simpa [createWalletsLoop, createRandom] using h.1
      _ = p.childWallets ++ List.range' p.nextFresh (k + 1) := by
            simp [List.range'_succ, List.append_assoc]
    · have h2 := h.2
      simp only [createWalletsLoop, createRandom] at h2 ⊢
      omega

/-! ### Claim C1 -/

/-- C1: after updateNonce (the spec's initialize) the cached entry equals
the ledger-reported pending count; any run of k getNextNonce calls (the
spec's allocate, a pure cache operation with no ledger argument) then
returns p, p+1, ..., p+k-1: each call returns one more than the previous,
the returns are strictly increasing, and no value repeats absent a
resync. -/
theorem seq_allocator_alloc_sequence (st : List (Address × Nat))
    (a : Address) (p k : Nat) :
    lookupNonce (updateNonce st a p).2 a = some p
      ∧ (allocRun (updateNonce st a p).2 a k).1 = List.range' p k
      ∧ List.Pairwise (· < ·) (allocRun (updateNonce st a p).2 a k).1
      ∧ (allocRun (updateNonce st a p).2 a k).1.Nodup := by
  have hl : lookupNonce (updateNonce st a p).2 a = some p :=
    lookupNonce_insert st a p
  have hr : (allocRun (updateNonce st a p).2 a k).1 = List.range' p k :=
    allocRun_of_lookup a k _ p hl
  refine ⟨hl, hr, ?_, ?_⟩
  · rw [hr]; exact List.pairwise_lt_range' p k
  · rw [hr]; exact List.nodup_range' p k

/-! ### Claim C2 (corrected) -/

/-- C2 counterexample: the claim says createAccounts(n) fails with an
InvalidCount condition for n ≤ 0, but the source's createWallets never
throws: at n = 0 (and n = -3) it runs its loop zero times and returns the
unchanged empty pool, where the claim-shaped version fails. -/
theorem createWallets_nonpositive_counterexample :
    createAccountsClaim 0 initialPool = .error .invalidCount
      ∧ createWallets 0 initialPool = (initialPool, [])
      ∧ createWallets (-3) initialPool = (initialPool, []) :=
  ⟨rfl, rfl, rfl⟩

/-- C2 amended: for n > 0, createWallets yields exactly n wallets with
pairwise-distinct addresses in a stable (generation) order; for n ≤ 0 it
does not fail but creates nothing and leaves the pool unchanged; the
InvalidCount rejection of a nonpositive count is enforced upstream by
validateConfig (src/config.js), which runs before any wallet creation. -/
theorem createWallets_count_distinct (n : Int) :
    (0 < n →
      ((createWallets n initialPool).2.length : Int) = n
        ∧ (createWallets n initialPool).2 = List.range' 0 n.toNat
        ∧ (createWallets n initialPool).2.Nodup)
      ∧ (n ≤ 0 → ∀ p : Pool, createWallets n p = (p, p.childWallets))
      ∧ (∀ c : Config, c.numWallets ≤ 0 →
          ConfigError.invalidNumWallets ∈ validateConfig c) := by
  refine ⟨?_, ?_, ?_⟩
  · intro hn
    have h := createWalletsLoop_spec n.toNat initialPool
    have hw : (createWallets n initialPool).2 = List.range' 0 n.toNat := by
      simpa [createWallets, initialPool] using h.1
    refine ⟨?_, hw, ?_⟩
    · rw [hw]
      simp [List.length_range']
      omega
    · rw [hw]; exact List.nodup_range' 0 n.toNat
  · intro hn p
    simp [createWallets, Int.toNat_of_nonpos hn, createWalletsLoop]
  · intro c hc
    simp [validateConfig, hc]

/-- C2 witness for the amended theorem at n = 2, n = -1, and a concrete
invalid configuration. -/
theorem createWallets_count_distinct_witness :
    ((0 : Int) < 2
        ∧ (((createWallets 2 initialPool).2.length : Int) = 2
          ∧ (createWallets 2 initialPool).2 = List.range' 0 (2 : Int).toNat
          ∧ (createWallets 2 initialPool).2.Nodup))
      ∧ ((-1 : Int) ≤ 0
        ∧ createWallets (-1) initialPool = (initialPool, initialPool.childWallets))
      ∧ ((Config.mk true true 0 5 100).numWallets ≤ 0
        ∧ ConfigError.invalidNumWallets
            ∈ validateConfig (Config.mk true true 0 5 100)) :=
  ⟨⟨by decide, (createWallets_count_distinct 2).1 (by decide)⟩,
   ⟨by decide, (createWallets_count_distinct (-1)).2.1 (by decide) initialPool⟩,
   ⟨by decide, (createWallets_count_distinct (-1)).2.2 _ (by decide)⟩⟩

/-! ### Claim C3 (corrected) -/

/-- C3 counterexample: calling stop() before start() does not make the
subsequent start() terminate immediately with zero sent transactions:
startLoadTest sets the running flag itself, so the run proceeds and (with
one wallet, one transaction, confirmed) sends one transaction. -/
theorem stop_before_start_counterexample :
    (startLoadTest envC3 (stop initialLTState)).1.stats.totalTransactions = 1
      ∧ (startLoadTest envC3
          (stop initialLTState)).1.stats.successfulTransactions = 1
      ∧ (startLoadTest envC3 (stop initialLTState)).2.2 = .completed := by
  refine ⟨rfl, rfl, rfl⟩

/-- C3 amended: stop() before start() leaves the Stats counters at
all-zero (stop only clears the running flag and touches no counter), but
it does not cause the subsequent start() to terminate immediately: on any
not-running tester, start() behaves identically whether or not stop() was
called first, because it sets the running flag itself. -/
theorem stop_before_start_stats_zero :
    stop initialLTState = initialLTState
      ∧ initialLTState.stats = ⟨0, 0, 0⟩
      ∧ (∀ st : LTState, (stop st).stats = st.stats)
      ∧ (∀ (env : LTEnv) (st : LTState), st.isRunning = false →
          startLoadTest env (stop st) = startLoadTest env st) := by
  refine ⟨rfl, rfl, fun st => rfl, ?_⟩
  intro env st h
  have : stop st = st := by
    cases st with
    | mk r s n => cases h; rfl
  rw [this]

/-- C3 witness for the amended theorem at a concrete not-running state. -/
theorem stop_before_start_stats_zero_witness :
    initialLTState.isRunning = false
      ∧ startLoadTest envC3 (stop initialLTState)
          = startLoadTest envC3 initialLTState :=
  ⟨rfl, stop_before_start_stats_zero.2.2.2 envC3 initialLTState rfl⟩

/-! ### Claim C5 -/

/-- C5: when a send or confirmation error is nonce-related, the iteration
resyncs the wallet's cached nonce from the ledger (updateNonce), the error
is recorded as failed in Stats (the source in fact counts it twice: once
in sendTransaction's catch and once in the loop's catch, so the counter
grows by exactly 2), and the loop is not aborted: the iteration at index
ti hands control to the iteration at ti + 1. -/
theorem dispatch_nonce_conflict_resync (env : LTEnv) (w : Address)
    (wi ti : Nat) (st : LTState) (hrun : st.isRunning = true)
    (hout : env.outcome wi ti = .broadcastThrew true
      ∨ env.outcome wi ti = .confirmThrew true) :
    lookupNonce (runWalletIter env w wi ti st).1.nonces w
        = some (env.pending w)
      ∧ (runWalletIter env w wi ti st).1.stats.failedTransactions
          = st.stats.failedTransactions + 2
      ∧ (runWalletIter env w wi ti st).2.2 = true
      ∧ ∀ rem, runWalletFrom env w wi ti (rem + 1) st
          = ((runWalletFrom env w wi (ti + 1) rem
                (runWalletIter env w wi ti st).1).1,
             (runWalletIter env w wi ti st).2.1
               ++ (runWalletFrom env w wi (ti + 1) rem
                     (runWalletIter env w wi ti st).1).2) := by
  rcases hout with h | h <;>
    refine ⟨?_, ?_, ?_, fun rem => ?_⟩ <;>
    simp [runWalletIter, sendTransaction, h, lookupNonce_insert,
      runWalletFrom, hrun]

/-- C5 witness at wallet 7, iteration 0, a running state, and rem = 1. -/
theorem dispatch_nonce_conflict_resync_witness :
    (LTState.mk true ⟨0, 0, 0⟩ []).isRunning = true
      ∧ (envC5.outcome 0 0 = .broadcastThrew true
          ∨ envC5.outcome 0 0 = .confirmThrew true)
      ∧ lookupNonce
          (runWalletIter envC5 7 0 0 (LTState.mk true ⟨0, 0, 0⟩ [])).1.nonces 7
          = some (envC5.pending 7)
      ∧ (runWalletIter envC5 7 0 0
            (LTState.mk true ⟨0, 0, 0⟩ [])).1.stats.failedTransactions
          = (LTState.mk true ⟨0, 0, 0⟩ []).stats.failedTransactions + 2
      ∧ runWalletFrom envC5 7 0 0 (1 + 1) (LTState.mk true ⟨0, 0, 0⟩ [])
          = ((runWalletFrom envC5 7 0 (0 + 1) 1
                (runWalletIter envC5 7 0 0 (LTState.mk true ⟨0, 0, 0⟩ [])).1).1,
             (runWalletIter envC5 7 0 0 (LTState.mk true ⟨0, 0, 0⟩ [])).2.1
               ++ (runWalletFrom envC5 7 0 (0 + 1) 1
                     (runWalletIter envC5 7 0 0
                       (LTState.mk true ⟨0, 0, 0⟩ [])).1).2) := by
  refine ⟨rfl, Or.inr rfl, ?_, ?_, ?_⟩
  · exact (dispatch_nonce_conflict_resync envC5 7 0 0 _ rfl (Or.inr rfl)).1
  · exact (dispatch_nonce_conflict_resync envC5 7 0 0 _ rfl (Or.inr rfl)).2.1
  · exact (dispatch_nonce_conflict_resync envC5 7 0 0 _ rfl (Or.inr rfl)).2.2.2 1

/-! ### Claim C10 -/

/-- C10: an iteration whose send throws proceeds directly to the next
iteration and performs no interval sleep; the interval sleep happens in an
iteration exactly when its sendTransaction call returned without throwing
(in particular the broadcast did not throw) and more iterations remain. -/
theorem dispatch_error_skips_interval (env : LTEnv) (w : Address)
    (wi ti : Nat) (st : LTState) :
    (throwsOutcome (env.outcome wi ti) = true →
        (runWalletIter env w wi ti st).2.2 = true
          ∧ hasIntervalSleep (runWalletIter env w wi ti st).2.1 = false
          ∧ (st.isRunning = true → ∀ rem,
              runWalletFrom env w wi ti (rem + 1) st
                = ((runWalletFrom env w wi (ti + 1) rem
                      (runWalletIter env w wi ti st).1).1,
                   (runWalletIter env w wi ti st).2.1
                     ++ (runWalletFrom env w wi (ti + 1) rem
                           (runWalletIter env w wi ti st).1).2)))
      ∧ (LTEvent.intervalSleep wi ti ∈ (runWalletIter env w wi ti st).2.1
          ↔ throwsOutcome (env.outcome wi ti) = false
              ∧ ti < env.transactionsPerWallet - 1) := by
  rcases houtcome : env.outcome wi ti with _ | _ | nr | nr <;>
    constructor <;>
    first
      | (intro hth
         refine ⟨?_, ?_, fun hrun rem => ?_⟩ <;>
           simp_all [runWalletIter, sendTransaction, throwsOutcome,
             hasIntervalSleep, runWalletFrom] <;>
           cases nr <;> simp_all)
      | (by_cases hlast : ti < env.transactionsPerWallet - 1 <;>
          (try cases nr) <;>
          simp [runWalletIter, sendTransaction, throwsOutcome, houtcome,
            hasIntervalSleep, hlast])

/-- C10 witness: a throwing send at iteration 0 of envC5 (which has three
configured transactions) performs no sleep, and the membership equivalence
at the same point. -/
theorem dispatch_error_skips_interval_witness :
    throwsOutcome (envC5.outcome 0 0) = true
      ∧ hasIntervalSleep
          (runWalletIter envC5 7 0 0 (LTState.mk true ⟨0, 0, 0⟩ [])).2.1 = false
      ∧ (LTEvent.intervalSleep 0 0
            ∈ (runWalletIter envC5 7 0 0 (LTState.mk true ⟨0, 0, 0⟩ [])).2.1
          ↔ throwsOutcome (envC5.outcome 0 0) = false
              ∧ 0 < envC5.transactionsPerWallet - 1) :=
  ⟨rfl,
   ((dispatch_error_skips_interval envC5 7 0 0
      (LTState.mk true ⟨0, 0, 0⟩ [])).1 rfl).2.1,
   (dispatch_error_skips_interval envC5 7 0 0
      (LTState.mk true ⟨0, 0, 0⟩ [])).2⟩

/-! ### Helper lemmas for the distribution theorems -/

theorem idxMap_append (f : Nat → Address → β) :
    ∀ (xs ys : List Address) (i : Nat),
      idxMap f i (xs ++ ys) = idxMap f i xs ++ idxMap f (i + xs.length) ys := by
  intro xs
  induction xs with
  | nil => intro ys i; simp [idxMap]
  | cons x xs ih =>
    intro ys i
    simp [idxMap, ih ys (i + 1)]
    have : i + 1 + xs.length = i + (xs.length + 1) := by omega
    rw [this]

theorem idxMap_ext (f g : Nat → Address → β) (h : ∀ i a, f i a = g i a) :
    ∀ (xs : List Address) (i : Nat), idxMap f i xs = idxMap g i xs := by
  intro xs
  induction xs with
  | nil => intro i; simp [idxMap]
  | cons x xs ih => intro i; simp [idxMap, h, ih]

theorem broadcastsOf_append (evs evs' : List DistEvent) :
    broadcastsOf (evs ++ evs') = broadcastsOf evs ++ broadcastsOf evs' := by
  simp [broadcastsOf, List.filterMap_append]

theorem broadcastsOf_sends (share base : Nat) :
    ∀ (xs : List Address) (i : Nat),
      broadcastsOf
          (idxMap (fun gi a => DistEvent.broadcast ⟨a, share, base + gi⟩) i xs)
        = idxMap (fun gi a => Transfer.mk a share (base + gi)) i xs := by
  intro xs
  induction xs with
  | nil => intro i; simp [idxMap, broadcastsOf]
  | cons x xs ih => intro i; simp [idxMap, broadcastsOf, List.filterMap] at ih ⊢; exact ih (i + 1)

theorem broadcastsOf_terms (share base : Nat) (ok : Nat → Bool) :
    ∀ (xs : List Address) (i : Nat),
      broadcastsOf
          (idxMap (fun gi a =>
            if ok gi then DistEvent.confirmed ⟨a, share, base + gi⟩
            else DistEvent.failedTx ⟨a, share, base + gi⟩) i xs)
        = [] := by
  intro xs
  induction xs with
  | nil => intro i; simp [idxMap, broadcastsOf]
  | cons x xs ih =>
    intro i
    by_cases h : ok i <;>
      simp [idxMap, broadcastsOf, List.filterMap, h] <;>
      simpa [broadcastsOf] using ih (i + 1)

theorem allOk_eq_true (ok : Nat → Bool) :
    ∀ (n s : Nat), (∀ m, m < n → ok (s + m) = true) → allOk ok s n = true := by
  intro n
  induction n with
  | zero => intro s _; simp [allOk]
  | succ n ih =>
    intro s h
    have h0 : ok s = true := by simpa using h 0 (by omega)
    have hr : allOk ok (s + 1) n = true := by
      refine ih (s + 1) fun m hm => ?_
      have := h (m + 1) (by omega)
      simpa [Nat.add_assoc, Nat.add_comm 1 m] using this
    simp [allOk, h0, hr]

theorem allOk_eq_false (ok : Nat → Bool) :
    ∀ (n s j : Nat), j < n → ok (s + j) = false → allOk ok s n = false := by
  intro n
  induction n with
  | zero => intro s j hj _; omega
  | succ n ih =>
    intro s j hj hok
    rcases Nat.eq_zero_or_pos j with hj0 | hjpos
    · subst hj0; simp at hok; simp [allOk, hok]
    · have : ok (s + 1 + (j - 1)) = false := by
        have : s + 1 + (j - 1) = s + j := by omega
        rw [this]; exact hok
      have hr := ih (s + 1) (j - 1) (by omega) this
      simp [allOk, hr]

theorem runDistAux_all_ok (share base : Nat) (ok : Nat → Bool)
    (hok : ∀ i, ok i = true) :
    ∀ (fuel : Nat) (start : Nat) (ws : List Address), ws.length ≤ fuel →
      runDistAux share base ok fuel start ws
        = ((plannedBlocks share base fuel start ws).flatten, true) := by
  intro fuel
  induction fuel with
  | zero =>
    intro start ws hle
    have : ws = [] := by
      cases ws with
      | nil => rfl
      | cons w ws => simp at hle
    subst this
    simp [runDistAux, plannedBlocks]
  | succ fuel ih =>
    intro start ws hle
    cases ws with
    | nil => simp [runDistAux, plannedBlocks]
    | cons w ws =>
      have hterm :
          idxMap (fun gi a =>
            if ok gi then DistEvent.confirmed ⟨a, share, base + gi⟩
            else DistEvent.failedTx ⟨a, share, base + gi⟩) start
              ((w :: ws).take 20)
            = idxMap (fun gi a => DistEvent.confirmed ⟨a, share, base + gi⟩)
                start ((w :: ws).take 20) :=
        idxMap_ext _ _ (fun i a => by simp [hok i]) _ _
      have hall : allOk ok start ((w :: ws).take 20).length = true :=
        allOk_eq_true ok _ _ (fun m _ => hok _)
      have hrest : ((w :: ws).drop 20).length ≤ fuel := by
        simp at hle ⊢
        omega
      simp only [runDistAux, hterm, hall, if_true, ih _ _ hrest,
        plannedBlocks, plannedBatchEvents, List.flatten]

theorem runDistAux_broadcasts_all_ok (share base : Nat) (ok : Nat → Bool)
    (hok : ∀ i, ok i = true) :
    ∀ (fuel : Nat) (start : Nat) (ws : List Address), ws.length ≤ fuel →
      broadcastsOf (runDistAux share base ok fuel start ws).1
        = idxMap (fun gi a => Transfer.mk a share (base + gi)) start ws := by
  intro fuel
  induction fuel with
  | zero =>
    intro start ws hle
    have : ws = [] := by
      cases ws with
      | nil => rfl
      | cons w ws => simp at hle
    subst this
    simp [runDistAux, broadcastsOf, idxMap]
  | succ fuel ih =>
    intro start ws hle
    cases ws with
    | nil => simp [runDistAux, broadcastsOf, idxMap]
    | cons w ws =>
      have hall : allOk ok start ((w :: ws).take 20).length = true :=
        allOk_eq_true ok _ _ (fun m _ => hok _)
      have hrest : ((w :: ws).drop 20).length ≤ fuel := by
        simp at hle ⊢
        omega
      have hsplit := List.take_append_drop 20 (w :: ws)
      conv_rhs => rw [← hsplit]
      rw [idxMap_append]
      simp only [runDistAux, hall, if_true]
      rw [broadcastsOf_append, broadcastsOf_append, broadcastsOf_sends,
        broadcastsOf_terms, ih _ _ hrest]
      simp

theorem runDistAux_fail (share base : Nat) (ok : Nat → Bool) :
    ∀ (k fuel start : Nat) (ws : List Address), ws.length ≤ fuel →
      (∀ i, i < 20 * k → ok (start + i) = true) →
      (∃ j, 20 * k ≤ j ∧ j < 20 * k + 20 ∧ j < ws.length
        ∧ ok (start + j) = false) →
      (runDistAux share base ok fuel start ws).2 = false
        ∧ broadcastsOf (runDistAux share base ok fuel start ws).1
            = idxMap (fun gi a => Transfer.mk a share (base + gi)) start
                (ws.take (20 * k + 20)) := by
  intro k
  induction k with
  | zero =>
    intro fuel start ws hle hpre hfail
    obtain ⟨j, hj0, hj20, hjlen, hjok⟩ := hfail
    cases ws with
    | nil => simp at hjlen
    | cons w ws =>
      cases fuel with
      | zero => simp at hle
      | succ fuel =>
        have hjlen' : j < ws.length + 1 := by
          simpa using hjlen
        have hall : allOk ok start ((w :: ws).take 20).length = false := by
          refine allOk_eq_false ok _ _ j ?_ hjok
          rw [List.length_take, List.length_cons]
          omega
        simp only [runDistAux, hall, Bool.false_eq_true, if_false]
        refine ⟨trivial, ?_⟩
        rw [broadcastsOf_append, broadcastsOf_sends, broadcastsOf_terms]
        simp
  | succ k ih =>
    intro fuel start ws hle hpre hfail
    obtain ⟨j, hjlo, hjhi, hjlen, hjok⟩ := hfail
    cases ws with
    | nil => simp at hjlen
    | cons w ws =>
      cases fuel with
      | zero => simp at hle
      | succ fuel =>
        have hjlen' : j < ws.length + 1 := by
          simpa using hjlen
        have hle' : ws.length + 1 ≤ fuel + 1 := by
          simpa using hle
        have hbatchlen : ((w :: ws).take 20).length = 20 := by
          rw [List.length_take, List.length_cons]
          omega
        have hall : allOk ok start ((w :: ws).take 20).length = true := by
          rw [hbatchlen]
          exact allOk_eq_true ok _ _ (fun m hm => hpre m (by omega))
        have hdroplen : ((w :: ws).drop 20).length = ws.length + 1 - 20 := by
          rw [List.length_drop, List.length_cons]
        have hrest : ((w :: ws).drop 20).length ≤ fuel := by
          rw [hdroplen]
          omega
        have hpre' : ∀ i, i < 20 * k → ok (start + 20 + i) = true := by
          intro i hi
          have := hpre (20 + i) (by omega)
          simpa [Nat.add_assoc] using this
        have hfail' : ∃ j', 20 * k ≤ j' ∧ j' < 20 * k + 20
            ∧ j' < ((w :: ws).drop 20).length ∧ ok (start + 20 + j') = false := by
          refine ⟨j - 20, by omega, by omega, ?_, ?_⟩
          · rw [hdroplen]
            omega
          · have : start + 20 + (j - 20) = start + j := by omega
            rw [this]; exact hjok
        have hih := ih fuel (start + 20) ((w :: ws).drop 20) hrest hpre' hfail'
        have hall20 : allOk ok start 20 = true := by
          rw [← hbatchlen]; exact hall
        simp only [runDistAux, hbatchlen, hall20, if_true]
        constructor
        · exact hih.1
        · rw [broadcastsOf_append, broadcastsOf_append, broadcastsOf_sends,
            broadcastsOf_terms, hih.2]
          have htake : (w :: ws).take (20 * (k + 1) + 20)
              = (w :: ws).take 20 ++ ((w :: ws).drop 20).take (20 * k + 20) := by
            have h20 : 20 * (k + 1) + 20 = 20 + (20 * k + 20) := by omega
            rw [h20, List.take_add]
          rw [htake, idxMap_append, hbatchlen]
          simp

theorem distBatches_nil (fuel : Nat) : distBatches fuel [] = [] := by
  cases fuel <;> rfl

theorem plannedBlocks_nil (share base fuel start : Nat) :
    plannedBlocks share base fuel start [] = [] := by
  cases fuel <;> rfl

theorem distBatches_flatten :
    ∀ (fuel : Nat) (ws : List Address), ws.length ≤ fuel →
      (distBatches fuel ws).flatten = ws := by
  intro fuel
  induction fuel with
  | zero =>
    intro ws hle
    cases ws with
    | nil => rfl
    | cons w ws => simp at hle
  | succ fuel ih =>
    intro ws hle
    cases ws with
    | nil => rfl
    | cons w ws =>
      have hrest : ((w :: ws).drop 20).length ≤ fuel := by
        rw [List.length_drop]
        simp at hle ⊢
        omega
      simp only [distBatches, List.flatten, ih _ hrest]
      exact List.take_append_drop 20 (w :: ws)

theorem distBatches_mem :
    ∀ (fuel : Nat) (ws b : List Address), b ∈ distBatches fuel ws →
      b ≠ [] ∧ b.length ≤ 20 := by
  intro fuel
  induction fuel with
  | zero => intro ws b hb; simp [distBatches] at hb
  | succ fuel ih =>
    intro ws b hb
    cases ws with
    | nil => simp [distBatches] at hb
    | cons w ws =>
      simp only [distBatches, List.mem_cons] at hb
      rcases hb with hb | hb
      · subst hb
        constructor
        · simp [List.take_succ_cons]
        · rw [List.length_take]; omega
      · exact ih _ _ hb

theorem distBatches_full :
    ∀ (k fuel : Nat) (ws : List Address),
      k + 1 < (distBatches fuel ws).length →
      ∃ b, (distBatches fuel ws)[k]? = some b ∧ b.length = 20 := by
  intro k
  induction k with
  | zero =>
    intro fuel ws hk
    cases fuel with
    | zero => simp [distBatches] at hk
    | succ fuel =>
      cases ws with
      | nil => simp [distBatches] at hk
      | cons w ws =>
        simp only [distBatches, List.length_cons] at hk
        have hdne : (w :: ws).drop 20 ≠ [] := by
          intro hnil
          rw [hnil, distBatches_nil] at hk
          simp at hk
        have hlen : 20 < (w :: ws).length := by
          by_contra hcon
          exact hdne (List.drop_eq_nil_iff.mpr (by omega))
        refine ⟨(w :: ws).take 20, ?_, ?_⟩
        · simp [distBatches, List.getElem?_cons_zero]
        · rw [List.length_take]; omega
  | succ k ih =>
    intro fuel ws hk
    cases fuel with
    | zero => simp [distBatches] at hk
    | succ fuel =>
      cases ws with
      | nil => simp [distBatches] at hk
      | cons w ws =>
        simp only [distBatches, List.length_cons] at hk
        have := ih fuel ((w :: ws).drop 20) (by omega)
        simpa [distBatches, List.getElem?_cons_succ] using this

theorem plannedBlocks_get (share base : Nat) :
    ∀ (k fuel start : Nat) (ws : List Address), ws.length ≤ fuel →
      (plannedBlocks share base fuel start ws)[k]?
        = ((distBatches fuel ws)[k]?).map
            (fun b => plannedBatchEvents share base (start + 20 * k) b) := by
  intro k
  induction k with
  | zero =>
    intro fuel start ws hle
    cases fuel with
    | zero =>
      cases ws with
      | nil => rfl
      | cons w ws => simp at hle
    | succ fuel =>
      cases ws with
      | nil => rfl
      | cons w ws =>
        simp [plannedBlocks, distBatches, List.getElem?_cons_zero]
  | succ k ih =>
    intro fuel start ws hle
    cases fuel with
    | zero =>
      cases ws with
      | nil => rfl
      | cons w ws => simp at hle
    | succ fuel =>
      cases ws with
      | nil => rfl
      | cons w ws =>
        simp only [plannedBlocks, distBatches, List.getElem?_cons_succ]
        by_cases hdnil : (w :: ws).drop 20 = []
        · rw [hdnil, plannedBlocks_nil, distBatches_nil]
          rfl
        · have hlen : 20 < (w :: ws).length := by
            by_contra hcon
            exact hdnil (List.drop_eq_nil_iff.mpr (by omega))
          have hbatchlen : ((w :: ws).take 20).length = 20 := by
            rw [List.length_take]; omega
          have hrest : ((w :: ws).drop 20).length ≤ fuel := by
            rw [List.length_drop]
            simp at hle ⊢
            omega
          rw [hbatchlen, ih fuel (start + 20) _ hrest]
          have harith : start + 20 + 20 * k = start + 20 * (k + 1) := by ring
          rw [harith]

theorem idxMap_value_mem (share base : Nat) :
    ∀ (xs : List Address) (i : Nat) (t : Transfer),
      t ∈ idxMap (fun gi a => Transfer.mk a share (base + gi)) i xs →
      t.value = share := by
  intro xs
  induction xs with
  | nil => intro i t ht; simp [idxMap] at ht
  | cons x xs ih =>
    intro i t ht
    simp only [idxMap, List.mem_cons] at ht
    rcases ht with ht | ht
    · subst ht; rfl
    · exact ih _ _ ht

theorem runDistAux_value (share base : Nat) (ok : Nat → Bool) :
    ∀ (fuel start : Nat) (ws : List Address) (t : Transfer),
      t ∈ broadcastsOf (runDistAux share base ok fuel start ws).1 →
      t.value = share := by
  intro fuel
  induction fuel with
  | zero =>
    intro start ws t ht
    simp [runDistAux, broadcastsOf] at ht
  | succ fuel ih =>
    intro start ws t ht
    cases ws with
    | nil => simp [runDistAux, broadcastsOf] at ht
    | cons w ws =>
      simp only [runDistAux] at ht
      by_cases hall : allOk ok start ((w :: ws).take 20).length = true
      · rw [if_pos hall] at ht
        rw [broadcastsOf_append, broadcastsOf_append, broadcastsOf_sends,
          broadcastsOf_terms] at ht
        simp only [List.append_nil, List.mem_append] at ht
        rcases ht with ht | ht
        · exact idxMap_value_mem share base _ _ _ ht
        · exact ih _ _ _ ht
      · rw [if_neg hall] at ht
        rw [broadcastsOf_append, broadcastsOf_sends, broadcastsOf_terms] at ht
        simp only [List.append_nil] at ht
        exact idxMap_value_mem share base _ _ _ ht

/-- Unfolding of distributeFunds when all its guards pass: the result is
the batch loop's trace, and the share is the floored quotient of the
available balance by the wallet count. -/
theorem distributeFunds_eq (B : Nat) (ws : List Address) (base : Nat)
    (ok : Nat → Bool) (reserve : Nat) (hB : B ≠ 0)
    (hres : gasReserveWei ws.length = some reserve)
    (hava : 0 < (B : Int) - (reserve : Int)) (hne : ws ≠ []) :
    distributeFunds B ws base ok
      = ⟨(runDistAux (((B : Int) - (reserve : Int)).toNat / ws.length)
            base ok ws.length 0 ws).1,
         if (runDistAux (((B : Int) - (reserve : Int)).toNat / ws.length)
              base ok ws.length 0 ws).2
         then .ok else .err .transferFailed⟩ := by
  have h2 : ¬((B : Int) - (reserve : Int) ≤ 0) := by omega
  have h3 : ¬(ws.length = 0) := by
    simpa [List.length_eq_zero] using hne
  simp [distributeFunds, hres, hB, h2, h3]

/-! ### Claim C6 -/

/-- C6: distributeFunds fails before issuing any transfer - with an empty
trace, hence zero broadcasts - whenever the master balance is zero (the
source's first throw) or the available balance after subtracting the gas
reserve is not positive (the second throw); in particular whenever the
balance does not exceed the reserve. -/
theorem distribute_insufficient_guard (B : Nat) (ws : List Address)
    (base : Nat) (ok : Nat → Bool) (reserve : Nat) :
    (B = 0 → distributeFunds B ws base ok = ⟨[], .err .noFunds⟩)
      ∧ (B ≠ 0 → gasReserveWei ws.length = some reserve →
          (B : Int) - (reserve : Int) ≤ 0 →
          distributeFunds B ws base ok = ⟨[], .err .insufficientAfterReserve⟩)
      ∧ (B ≠ 0 → gasReserveWei ws.length = some reserve →
          (B : Int) ≤ (reserve : Int) →
          distributeFunds B ws base ok
            = ⟨[], .err .insufficientAfterReserve⟩) := by
  refine ⟨?_, ?_, ?_⟩
  · intro hB; subst hB; simp [distributeFunds]
  · intro hB hres hle
    simp [distributeFunds, hB, hres, hle]
  · intro hB hres hle
    have h2 : (B : Int) - (reserve : Int) ≤ 0 := by omega
    simp [distributeFunds, hB, hres, h2]

/-- C6 witness: a zero balance, and a balance of 5 wei against the 2-wallet
reserve of 0.02 ETH. -/
theorem distribute_insufficient_guard_witness :
    ((0 : Nat) = 0
      ∧ distributeFunds 0 [1, 2] 7 (fun _ => true) = ⟨[], .err .noFunds⟩)
      ∧ ((5 : Nat) ≠ 0
        ∧ gasReserveWei [1, 2].length = some 20000000000000000
        ∧ ((5 : Nat) : Int) - ((20000000000000000 : Nat) : Int) ≤ 0
        ∧ distributeFunds 5 [1, 2] 7 (fun _ => true)
            = ⟨[], .err .insufficientAfterReserve⟩) :=
  ⟨⟨rfl, (distribute_insufficient_guard 0 [1, 2] 7 (fun _ => true)
      20000000000000000).1 rfl⟩,
   ⟨by decide, by decide, by decide,
    (distribute_insufficient_guard 5 [1, 2] 7 (fun _ => true)
      20000000000000000).2.1 (by decide) (by decide) (by decide)⟩⟩

/-! ### Claim C4 (corrected) -/

/-- C4 counterexample: the gas reserve is not exactly 0.01 * W ETH for
every worker count W.  The source computes the reserve from the binary64
product of 0.01 and W serialized by toString; at W = 35 this yields the
decimal 0.35000000000000003, i.e. 350000000000000030 wei, not
35 * 10 ^ 16 = 350000000000000000 wei. -/
theorem gasReserve_float_counterexample :
    gasReserveWei 35 = some 350000000000000030
      ∧ 350000000000000030 ≠ 35 * 10000000000000000 := by
  constructor
  · rfl
  · decide

/-- C4 amended: the gas reserve is parseEther applied to the binary64
product of 0.01 and the worker count (so it can deviate from an exact
0.01 * W ETH, e.g. at W = 35); the available balance is the master balance
minus that reserve, and every issued transfer carries exactly the
per-account share, the available balance divided by the worker count with
the remainder dropped.  For the scenario W = 10 the reserve is exactly
0.1 ETH, and with B = 10 ETH each of the 10 transfers carries 0.99 ETH. -/
theorem distribute_reserve_share (B : Nat) (ws : List Address) (base : Nat)
    (ok : Nat → Bool) (reserve : Nat) (hB : B ≠ 0)
    (hres : gasReserveWei ws.length = some reserve)
    (hava : 0 < (B : Int) - (reserve : Int)) (hne : ws ≠ []) :
    (∀ t ∈ broadcastsOf (distributeFunds B ws base ok).events,
        t.value = ((B : Int) - (reserve : Int)).toNat / ws.length)
      ∧ gasReserveWei 10 = some 100000000000000000
      ∧ (distributeFunds 10000000000000000000 [0, 1, 2, 3, 4, 5, 6, 7, 8, 9]
          0 (fun _ => true)).result = .ok
      ∧ (∀ t ∈ broadcastsOf (distributeFunds 10000000000000000000
            [0, 1, 2, 3, 4, 5, 6, 7, 8, 9] 0 (fun _ => true)).events,
          t.value = 990000000000000000)
      ∧ (broadcastsOf (distributeFunds 10000000000000000000
            [0, 1, 2, 3, 4, 5, 6, 7, 8, 9] 0 (fun _ => true)).events).length
          = 10 := by
  refine ⟨?_, by decide, by decide, by decide, by decide⟩
  rw [distributeFunds_eq B ws base ok reserve hB hres hava hne]
  intro t ht
  exact runDistAux_value _ base ok _ _ _ t ht

/-- C4 witness for the amended theorem at the scenario input B = 10 ETH,
W = 10. -/
theorem distribute_reserve_share_witness :
    ((10000000000000000000 : Nat) ≠ 0
      ∧ gasReserveWei ([0, 1, 2, 3, 4, 5, 6, 7, 8, 9] : List Address).length
          = some 100000000000000000
      ∧ (0 : Int) < ((10000000000000000000 : Nat) : Int)
          - ((100000000000000000 : Nat) : Int)
      ∧ ([0, 1, 2, 3, 4, 5, 6, 7, 8, 9] : List Address) ≠ [])
      ∧ (∀ t ∈ broadcastsOf (distributeFunds 10000000000000000000
            [0, 1, 2, 3, 4, 5, 6, 7, 8, 9] 3 (fun _ => true)).events,
          t.value = (((10000000000000000000 : Nat) : Int)
              - ((100000000000000000 : Nat) : Int)).toNat
            / ([0, 1, 2, 3, 4, 5, 6, 7, 8, 9] : List Address).length) :=
  ⟨⟨by decide, by decide, by decide, by decide⟩,
   (distribute_reserve_share 10000000000000000000
      [0, 1, 2, 3, 4, 5, 6, 7, 8, 9] 3 (fun _ => true) 100000000000000000
      (by decide) (by decide) (by decide) (by decide)).1⟩

/-! ### Claim C7 -/

/-- C7: under an oracle where every transfer confirms, distribution slices
the pool into batches of fixed size 20 in pool order (the batch list
flattens back to the pool, every batch but the last has exactly 20
members, and none is empty or larger than 20); the trace is the
concatenation of per-batch blocks in batch order, where block k holds
first all broadcasts of batch k and then all their terminal
confirmations - so every transfer of a batch reaches a terminal state
before any transfer of the next batch is broadcast; and the transfer to
the worker at global index i carries nonce base + i, computed by offset
arithmetic from the single pending-nonce read, with no allocation call
in between. -/
theorem distribute_batches_barrier (B : Nat) (ws : List Address)
    (base : Nat) (ok : Nat → Bool) (reserve : Nat) (hB : B ≠ 0)
    (hres : gasReserveWei ws.length = some reserve)
    (hava : 0 < (B : Int) - (reserve : Int)) (hne : ws ≠ [])
    (hok : ∀ i, ok i = true) :
    (distBatches ws.length ws).flatten = ws
      ∧ (∀ b ∈ distBatches ws.length ws, b ≠ [] ∧ b.length ≤ 20)
      ∧ (∀ k, k + 1 < (distBatches ws.length ws).length →
          ∃ b, (distBatches ws.length ws)[k]? = some b ∧ b.length = 20)
      ∧ (distributeFunds B ws base ok).result = .ok
      ∧ (distributeFunds B ws base ok).events
          = (plannedBlocks (((B : Int) - (reserve : Int)).toNat / ws.length)
              base ws.length 0 ws).flatten
      ∧ (∀ k, (plannedBlocks (((B : Int) - (reserve : Int)).toNat / ws.length)
              base ws.length 0 ws)[k]?
            = ((distBatches ws.length ws)[k]?).map
                (fun b => plannedBatchEvents
                  (((B : Int) - (reserve : Int)).toNat / ws.length)
                  base (20 * k) b))
      ∧ broadcastsOf (distributeFunds B ws base ok).events
          = idxMap (fun gi a => Transfer.mk a
              (((B : Int) - (reserve : Int)).toNat / ws.length)
              (base + gi)) 0 ws := by
  have hrun := runDistAux_all_ok (((B : Int) - (reserve : Int)).toNat
    / ws.length) base ok hok ws.length 0 ws le_rfl
  have hbr := runDistAux_broadcasts_all_ok (((B : Int) - (reserve : Int)).toNat
    / ws.length) base ok hok ws.length 0 ws le_rfl
  refine ⟨distBatches_flatten _ _ le_rfl,
    fun b hb => distBatches_mem _ _ _ hb,
    fun k hk => distBatches_full k _ _ hk, ?_, ?_, ?_, ?_⟩
  · rw [distributeFunds_eq B ws base ok reserve hB hres hava hne]
    rw [hrun]
    rfl
  · rw [distributeFunds_eq B ws base ok reserve hB hres hava hne]
    rw [hrun]
  · intro k
    have := plannedBlocks_get (((B : Int) - (reserve : Int)).toNat
      / ws.length) base k ws.length 0 ws le_rfl
    simpa using this
  · rw [distributeFunds_eq B ws base ok reserve hB hres hava hne]
    exact hbr

/-- C7 witness at the scenario input: 10 wallets in one batch. -/
theorem distribute_batches_barrier_witness :
    ((10000000000000000000 : Nat) ≠ 0
      ∧ gasReserveWei ([0, 1, 2, 3, 4, 5, 6, 7, 8, 9] : List Address).length
          = some 100000000000000000
      ∧ (0 : Int) < ((10000000000000000000 : Nat) : Int)
          - ((100000000000000000 : Nat) : Int)
      ∧ ([0, 1, 2, 3, 4, 5, 6, 7, 8, 9] : List Address) ≠ [])
      ∧ (distBatches ([0, 1, 2, 3, 4, 5, 6, 7, 8, 9] : List Address).length
          [0, 1, 2, 3, 4, 5, 6, 7, 8, 9]).flatten = [0, 1, 2, 3, 4, 5, 6, 7, 8, 9]
      ∧ (distributeFunds 10000000000000000000 [0, 1, 2, 3, 4, 5, 6, 7, 8, 9]
          3 (fun _ => true)).result = .ok :=
  ⟨⟨by decide, by decide, by decide, by decide⟩,
   (distribute_batches_barrier 10000000000000000000
      [0, 1, 2, 3, 4, 5, 6, 7, 8, 9] 3 (fun _ => true) 100000000000000000
      (by decide) (by decide) (by decide) (by decide) (fun _ => rfl)).1,
   (distribute_batches_barrier 10000000000000000000
      [0, 1, 2, 3, 4, 5, 6, 7, 8, 9] 3 (fun _ => true) 100000000000000000
      (by decide) (by decide) (by decide) (by decide)
      (fun _ => rfl)).2.2.2.1⟩

/-! ### Claim C8 -/

/-- C8: when the transfer at global index j rejects (and all batches
before j's batch fully resolved), distributeFunds propagates the rejection
of await Promise.all - the whole distribution fails with the transfer's
error - and the broadcast transfers are exactly those of the batches up to
and including the failing one: every member of the failing batch was still
broadcast (nothing is rolled back) and no transfer of any later batch is
ever issued. -/
theorem distribute_batch_failure (B : Nat) (ws : List Address) (base : Nat)
    (ok : Nat → Bool) (reserve : Nat) (j : Nat) (hB : B ≠ 0)
    (hres : gasReserveWei ws.length = some reserve)
    (hava : 0 < (B : Int) - (reserve : Int)) (hne : ws ≠ [])
    (hj : j < ws.length) (hjf : ok j = false)
    (hpre : ∀ i, i < 20 * (j / 20) → ok i = true) :
    (distributeFunds B ws base ok).result = .err .transferFailed
      ∧ broadcastsOf (distributeFunds B ws base ok).events
          = idxMap (fun gi a => Transfer.mk a
              (((B : Int) - (reserve : Int)).toNat / ws.length)
              (base + gi)) 0 (ws.take (20 * (j / 20) + 20)) := by
  have hfail := runDistAux_fail (((B : Int) - (reserve : Int)).toNat
    / ws.length) base ok (j / 20) ws.length 0 ws le_rfl
    (fun i hi => by simpa using hpre i hi)
    ⟨j, by omega, by omega, hj, by simpa using hjf⟩
  rw [distributeFunds_eq B ws base ok reserve hB hres hava hne]
  refine ⟨?_, hfail.2⟩
  rw [hfail.1]
  rfl

/-- C8 witness: 25 wallets, the transfer at global index 21 (batch 2)
fails; the broadcasts are exactly those of the first two batches (all 25
wallets here, since the failing batch is the last), and the operation
fails. -/
theorem distribute_batch_failure_witness :
    ((30000000000000000000 : Nat) ≠ 0
      ∧ gasReserveWei (List.range 25).length = some 250000000000000000
      ∧ (0 : Int) < ((30000000000000000000 : Nat) : Int)
          - ((250000000000000000 : Nat) : Int)
      ∧ (List.range 25 : List Address) ≠ []
      ∧ 21 < (List.range 25 : List Address).length
      ∧ (fun i => decide (i ≠ 21)) 21 = false)
      ∧ (distributeFunds 30000000000000000000 (List.range 25) 3
          (fun i => decide (i ≠ 21))).result = .err .transferFailed :=
  ⟨⟨by decide, by decide, by decide, by decide, by decide, by decide⟩,
   (distribute_batch_failure 30000000000000000000 (List.range 25) 3
      (fun i => decide (i ≠ 21)) 250000000000000000 21 (by decide) (by decide)
      (by decide) (by decide) (by decide) (by decide)
      (fun i hi => by
        simp only [decide_eq_true_eq]
        omega)).1⟩

/-! ### Claim C9 -/

theorem collectFold_eq_sum :
    ∀ (l : List CollectResult) (acc : Nat),
      l.foldl (fun acc r => if r.success then acc + r.amount else acc) acc
        = acc + ((l.filter (fun r => r.success)).map
            (fun r => r.amount)).sum := by
  intro l
  induction l with
  | nil => intro acc; simp
  | cons r l ih =>
    intro acc
    by_cases h : r.success <;>
      (simp [List.foldl_cons, List.filter_cons, h, ih]; try omega)

/-- C9: per worker account, collectAllFunds records a success with amount
0 when the balance is zero or at most the estimated gas cost, with no
sweep transaction issued; otherwise it broadcasts balance minus estimated
cost toward the master wallet and classifies by the receipt status; a
thrown per-account error is caught locally and becomes a failed
collection record, and since the result list is the independent
per-wallet map, no account's error aborts a sibling's collection; the
aggregate reports the number of successes, the wallet count, the sum of
the reclaimed amounts of the successful records, and the master wallet's
final balance. -/
theorem collect_all_funds_behavior (os : List CollectOracle)
    (finalBal : Nat) (o : CollectOracle) :
    (o.err = false → o.balance = 0 → collectWallet o = (⟨true, 0⟩, none))
      ∧ (o.err = false → o.balance ≠ 0 →
          o.balance ≤ estimatedGasCost o.gasPrice →
          collectWallet o = (⟨true, 0⟩, none))
      ∧ (o.err = false → estimatedGasCost o.gasPrice < o.balance →
          (collectWallet o).2 = some (o.balance - estimatedGasCost o.gasPrice)
            ∧ (collectWallet o).1
                = if o.status1
                  then ⟨true, o.balance - estimatedGasCost o.gasPrice⟩
                  else ⟨false, 0⟩)
      ∧ (o.err = true → collectWallet o = (⟨false, 0⟩, none))
      ∧ (collectAllFunds os finalBal).2
          = os.map (fun o => (collectWallet o).1)
      ∧ (collectAllFunds os finalBal).1.totalWallets = os.length
      ∧ (collectAllFunds os finalBal).1.successfulCollections
          = ((os.map (fun o => (collectWallet o).1)).filter
              (fun r => r.success)).length
      ∧ (collectAllFunds os finalBal).1.totalCollected
          = (((os.map (fun o => (collectWallet o).1)).filter
              (fun r => r.success)).map (fun r => r.amount)).sum
      ∧ (collectAllFunds os finalBal).1.finalMasterBalance = finalBal := by
  refine ⟨?_, ?_, ?_, ?_, rfl, rfl, rfl, ?_, rfl⟩
  · intro he hb; simp [collectWallet, he, hb]
  · intro he hb hle
    have : ¬(estimatedGasCost o.gasPrice < o.balance) := by omega
    simp [collectWallet, he, hb, this]
  · intro he hgt
    have hb : ¬(o.balance = 0) := by omega
    have hle : ¬(o.balance ≤ estimatedGasCost o.gasPrice) := by omega
    by_cases hs : o.status1 <;>
      simp [collectWallet, he, hb, hle, hgt, hs]
  · intro he; simp [collectWallet, he]
  · simpa [collectAllFunds] using
      collectFold_eq_sum (os.map (fun o => (collectWallet o).1)) 0

/-- C9 witness: a zero-balance wallet, a dust wallet below the fallback
gas cost, a funded wallet, and an erroring wallet. -/
theorem collect_all_funds_behavior_witness :
    ((CollectOracle.mk false 0 0 true).err = false
      ∧ (CollectOracle.mk false 0 0 true).balance = 0
      ∧ collectWallet (CollectOracle.mk false 0 0 true)
          = (⟨true, 0⟩, none))
      ∧ ((CollectOracle.mk false 5 0 true).err = false
        ∧ (CollectOracle.mk false 5 0 true).balance
            ≤ estimatedGasCost (CollectOracle.mk false 5 0 true).gasPrice
        ∧ collectWallet (CollectOracle.mk false 5 0 true)
            = (⟨true, 0⟩, none))
      ∧ ((CollectOracle.mk true 7 3 false).err = true
        ∧ collectWallet (CollectOracle.mk true 7 3 false)
            = (⟨false, 0⟩, none))
      ∧ (collectAllFunds
            [CollectOracle.mk false 0 0 true,
             CollectOracle.mk false 100000000000000000000 0 true,
             CollectOracle.mk true 7 3 false] 123).1.totalCollected
          = ((([CollectOracle.mk false 0 0 true,
               CollectOracle.mk false 100000000000000000000 0 true,
               CollectOracle.mk true 7 3 false].map
                (fun o => (collectWallet o).1)).filter
              (fun r => r.success)).map (fun r => r.amount)).sum :=
  ⟨⟨rfl, rfl,
    (collect_all_funds_behavior [] 0 (CollectOracle.mk false 0 0 true)).1
      rfl rfl⟩,
   ⟨rfl, by decide,
    (collect_all_funds_behavior [] 0 (CollectOracle.mk false 5 0 true)).2.1
      rfl (by decide) (by decide)⟩,
   ⟨rfl,
    (collect_all_funds_behavior [] 0
      (CollectOracle.mk true 7 3 false)).2.2.2.1 rfl⟩,
   (collect_all_funds_behavior
      [CollectOracle.mk false 0 0 true,
       CollectOracle.mk false 100000000000000000000 0 true,
       CollectOracle.mk true 7 3 false] 123
      (CollectOracle.mk false 0 0 true)).2.2.2.2.2.2.2.1⟩

end EthLoadTester
